import Mathlib

/-!
A verification development for `fedora43/clean_openwith/openwith_cleaner.py`,
a scan/classify/report/mutate utility over Freedesktop `.desktop` launcher
descriptor files.  The Python program is shallowly embedded: pure string
processing is translated function for function; the file system, the PATH
lookup (`shutil.which`), and `configparser`'s parse outcome are abstracted
into explicit parameters (they are external collaborators of the program);
file-system mutation is modelled as an explicit list of operations.
-/

namespace OpenwithCleaner

/-! ## Python string primitives

Python-faithful helpers used throughout: `str.strip` / `\s` whitespace,
`str.lower` (ASCII range, which is all the constants of the program use),
`str.split(c)` and `c.join`, `str.startswith`, `pathlib.PurePosixPath.name`.
-/

/-- The characters Python's `str.strip()` and the regex class `\s` treat as
whitespace (ASCII range). -/
def pySpace (c : Char) : Bool :=
  c = ' ' || c = '\t' || c = '\n' || c = '\r' || c = '\x0b' || c = '\x0c'

/-- `str.strip()` on a character list. -/
def pyStripL (l : List Char) : List Char :=
  ((l.dropWhile pySpace).reverse.dropWhile pySpace).reverse

/-- `str.strip()`. -/
def pyStrip (s : String) : String := String.mk (pyStripL s.data)

/-- `str.lower()` (ASCII letters; the program only lowercases ASCII keywords). -/
def pyLower (s : String) : String := String.mk (s.data.map Char.toLower)

/-- `s.startswith(pre)`. -/
def pyStartsWith (s pre : String) : Bool := pre.data.isPrefixOf s.data

/-- `val.split(c)` for a single-character separator: splits at every
occurrence, keeping empty pieces (Python `str.split(sep)` semantics). -/
def splitCh (c : Char) : List Char → List (List Char)
  | [] => [[]]
  | a :: rest =>
    if a = c then [] :: splitCh c rest
    else
      match splitCh c rest with
      | [] => [[a]]
      | p :: ps => (a :: p) :: ps

/-- `c.join(pieces)` for a single-character separator. -/
def joinCh (c : Char) : List (List Char) → List Char
  | [] => []
  | [p] => p
  | p :: q :: ps => p ++ c :: joinCh c (q :: ps)

/-- `pathlib.PurePosixPath(s).name`: the last path component, with root,
empty and `.` components discarded. -/
def pathName (s : String) : String :=
  match ((splitCh '/' s.data).filter (fun p => p ≠ [] && p ≠ ['.'])).getLast? with
  | some p => String.mk p
  | none => ""

/-! ## Executable resolution (`which_exists`)

`which_exists` consults the file system (`Path(cmd).exists()` for an
absolute command) or the PATH lookup (`shutil.which`); both are external,
so they are parameters of the embedding. -/

/-- The external executable-resolution environment: `fileExists p` models
`Path(p).exists()`, `whichFinds c` models `shutil.which(c) is not None`. -/
structure ExecEnv where
  fileExists : String → Bool
  whichFinds : String → Bool

/-- `which_exists` (openwith_cleaner.py:56-62): an empty command never
resolves; an absolute command resolves iff the path exists; otherwise the
PATH lookup decides. -/
def which_exists (env : ExecEnv) (cmd : String) : Bool :=
  if cmd = "" then false
  else if pyStartsWith cmd "/" then env.fileExists cmd
  else env.whichFinds cmd

/-! ## Exec-line tokenization (`extract_first_command`)

`extract_first_command` (openwith_cleaner.py:64-73) runs
`re.findall(r'(?:[^\s"\x27]+|"[^"]*"|\x27[^\x27]*\x27)+', exec_line.strip())`
and takes the first match, stripping one pair of wrapping quotes.  The
regex scan is embedded directly: a token is a maximal run of units, a unit
being a quote-free run, a double-quoted span, or a single-quoted span; at a
position where no unit matches the scan advances one character. -/

/-- The double-quote character. -/
def dq : Char := '"'

/-- The single-quote character. -/
def sq : Char := '\''

/-- Characters that may appear in an unquoted run: `[^\s"\x27]`. -/
def plainChar (c : Char) : Bool := !pySpace c && c ≠ dq && c ≠ sq

/-- Match one unit of the token regex at the head of the input: the unit's
characters and the remaining input, or `none` when no unit starts here. -/
def matchUnit : List Char → Option (List Char × List Char)
  | [] => none
  | c :: rest =>
    if c = dq then
      match rest.dropWhile (fun x => x ≠ dq) with
      | [] => none
      | _ :: rem => some (dq :: rest.takeWhile (fun x => x ≠ dq) ++ [dq], rem)
    else if c = sq then
      match rest.dropWhile (fun x => x ≠ sq) with
      | [] => none
      | _ :: rem => some (sq :: rest.takeWhile (fun x => x ≠ sq) ++ [sq], rem)
    else if plainChar c then
      some ((c :: rest).takeWhile plainChar, (c :: rest).dropWhile plainChar)
    else none

/-- Greedily extend a token with further units (fuelled by input length;
every unit consumes at least one character). -/
def collectUnits : Nat → List Char → List Char
  | 0, _ => []
  | fuel + 1, l =>
    match matchUnit l with
    | none => []
    | some (u, rem) => u ++ collectUnits fuel rem

/-- The first match of the token regex, scanning left to right. -/
def firstToken : List Char → Option (List Char)
  | [] => none
  | c :: rest =>
    match matchUnit (c :: rest) with
    | none => firstToken rest
    | some (u, rem) => some (u ++ collectUnits rem.length rem)

/-- `extract_first_command` (openwith_cleaner.py:64-73). -/
def extract_first_command (exec_line : String) : String :=
  if exec_line = "" then ""
  else
    match firstToken (pyStripL exec_line.data) with
    | none => ""
    | some first =>
      let wrapped :=
        (first.head? = some dq && first.getLast? = some dq) ||
        (first.head? = some sq && first.getLast? = some sq)
      if wrapped then String.mk (first.drop 1).dropLast else String.mk first

/-! ## Health classification (`looks_broken`) -/

/-- `WRAPPER_CMDS` (openwith_cleaner.py:35-38). -/
def WRAPPER_CMDS : List String :=
  ["env", "bash", "sh", "fish", "zsh", "/usr/bin/env", "flatpak", "snap",
   "python", "python3", "perl", "ruby", "java", "podman", "docker"]

/-- `looks_broken` (openwith_cleaner.py:83-95). -/
def looks_broken (env : ExecEnv) (exec_line tryexec : String) : Bool × String :=
  if tryexec ≠ "" ∧ which_exists env tryexec = false then
    (true, "TryExec not found: " ++ tryexec)
  else if extract_first_command exec_line = "" then (true, "Empty Exec")
  else if pathName (extract_first_command exec_line) ∈ WRAPPER_CMDS ∨
      extract_first_command exec_line ∈ WRAPPER_CMDS then
    if which_exists env (extract_first_command exec_line) = false then
      (true, "Wrapper not found in PATH: " ++ extract_first_command exec_line)
    else (false, "")
  else if which_exists env (extract_first_command exec_line) = false then
    (true, "Executable not found: " ++ extract_first_command exec_line)
  else (false, "")

/-- A concrete resolution environment: nothing exists as an absolute path,
and only `bash` and `gedit` are found on the PATH. -/
def envBash : ExecEnv :=
  { fileExists := fun _ => false
    whichFinds := fun s => s = "bash" || s = "gedit" }

example : extract_first_command "bash /missing/run.sh" = "bash" := by decide
example : extract_first_command "  \"/usr/bin/gedit\" %U " = "/usr/bin/gedit" := by decide
example : extract_first_command "" = "" := by decide
example : pathName "/usr/bin/env" = "env" := by decide
example : looks_broken envBash "gedit %U" "" = (false, "") := by decide
example : looks_broken envBash "bash /missing.sh" "ghost" =
    (true, "TryExec not found: ghost") := by decide

/-! ## The Entry data model -/

/-- `s in t` (Python substring test) on character lists. -/
def hasSub (pat : List Char) : List Char → Bool
  | [] => pat.isEmpty
  | a :: rest => pat.isPrefixOf (a :: rest) || hasSub pat rest

/-- `pat in s` (Python substring containment). -/
def strContains (s pat : String) : Bool := hasSub pat.data s.data

/-- The `Entry` dataclass (openwith_cleaner.py:40-54). -/
structure Entry where
  path : String
  scope : String
  name : String
  exec_line : String
  tryexec : String
  mimetypes : List String
  hidden : Bool
  nodisplay : Bool
  entry_type : String
  first_cmd : String
  provider : String
  broken : Bool
  reason : String
deriving DecidableEq, Repr

/-- `detect_provider` (openwith_cleaner.py:75-81). -/
def detect_provider (env : ExecEnv) (path : String) (exec_line : String) : String :=
  let low := pyLower path ++ " " ++ pyLower exec_line
  if strContains low "flatpak" || strContains low "/var/lib/flatpak" then "flatpak"
  else if strContains low "snap" || strContains low "/var/lib/snapd" then "snap"
  else if which_exists env (extract_first_command exec_line) then "native"
  else "other"

/-! ## Parsing a descriptor (`read_desktop`)

`read_desktop` (openwith_cleaner.py:97-150) drives `configparser`, an
external library; its outcome on one file is abstracted as a
`ParseOutcome`: an exception somewhere in the `try` block (`failure`), a
parse without a `Desktop Entry` section (`noSection`), or the section's
recognized fields (`fields`, with `none` for an absent or `None`-valued
key, matching `s.get(...)`; the two booleans are the values
`s.getboolean(..., fallback=False)` returned — a `getboolean` that raises
is a `failure` outcome). -/

inductive ParseOutcome where
  | failure (msg : String)
  | noSection
  | fields (typ name execL tryexecF mimeRaw : Option String) (hidden nodisplay : Bool)
deriving DecidableEq, Repr

/-- `read_desktop` (openwith_cleaner.py:97-150): field extraction,
classification, and the synthetic broken Entry built in the `except` arm
(empty name/command fields, `mimetypes=[]`, `broken=True`,
`reason='Parse error: …'`). -/
def read_desktop (env : ExecEnv) (home : String) (path : String)
    (out : ParseOutcome) : Option Entry :=
  match out with
  | .noSection => none
  | .failure msg =>
    some { path := path
           scope := if pyStartsWith path home then "user" else "system"
           name := "", exec_line := "", tryexec := "", mimetypes := []
           hidden := false, nodisplay := false, entry_type := "Application"
           first_cmd := "", provider := "other", broken := true
           reason := "Parse error: " ++ msg }
  | .fields typ nameF execF tryexecF mimeRaw hidden nodisplay =>
    let entry_type := typ.getD "Application"
    if pyLower entry_type ≠ "application" then none
    else
      let name := pyStrip (nameF.getD "")
      let exec_line := pyStrip (execF.getD "")
      let tryexec := pyStrip (tryexecF.getD "")
      let mimetypes := ((splitCh ';' (pyStrip (mimeRaw.getD "")).data).filter
        (fun m => m ≠ [])).map String.mk
      if mimetypes = [] then none
      else
        let first_cmd := extract_first_command exec_line
        let br := looks_broken env exec_line tryexec
        some { path := path
               scope := if pyStartsWith path home then "user" else "system"
               name := name, exec_line := exec_line, tryexec := tryexec
               mimetypes := mimetypes, hidden := hidden, nodisplay := nodisplay
               entry_type := entry_type, first_cmd := first_cmd
               provider := detect_provider env path exec_line
               broken := br.1, reason := br.2 }

/-! ## The locator (`find_desktop_files`) -/

/-- The external directory layer of the file system seen by the locator:
which directories exist, the `*.desktop` file names `glob` enumerates in a
directory, and the filesystem identity (inode) of a full path — the last is
never consulted by the program, only by the statements about it. -/
structure LocFS where
  dirExists : String → Bool
  globDesktop : String → List String
  fileId : String → Nat

/-- `USER_DIRS` (openwith_cleaner.py:24-27), with `~` expanded to `home`. -/
def user_dirs (home : String) : List String :=
  [home ++ "/.local/share/applications",
   home ++ "/.local/share/flatpak/exports/share/applications"]

/-- `SYSTEM_DIRS` (openwith_cleaner.py:29-33). -/
def system_dirs : List String :=
  ["/usr/share/applications",
   "/var/lib/flatpak/exports/share/applications",
   "/var/lib/snapd/desktop/applications"]

/-- The inner loop of `find_desktop_files`: add one existing directory's
globbed files, skipping a path already in `seen` (the `seen` set holds
`Path` values, i.e. path strings). State is `(seen, paths)`. -/
def addDirFiles (d : String) : List String → List String × List String →
    List String × List String
  | [], st => st
  | f :: rest, (seen, acc) =>
    let p := d ++ "/" ++ f
    if p ∈ seen then addDirFiles d rest (seen, acc)
    else addDirFiles d rest (p :: seen, acc ++ [p])

/-- The outer loop of `find_desktop_files` over the directory list. -/
def findAux (fs : LocFS) : List String → List String × List String →
    List String × List String
  | [], st => st
  | d :: ds, st =>
    findAux fs ds (if fs.dirExists d then addDirFiles d (fs.globDesktop d) st else st)

/-- `find_desktop_files` (openwith_cleaner.py:152-162). -/
def find_desktop_files (home : String) (fs : LocFS) : List String :=
  (findAux fs (user_dirs home ++ system_dirs) ([], [])).2

/-- `load_entries` (openwith_cleaner.py:164-170): parse every discovered
file (each with its abstracted parse outcome) and retain entries with a
non-empty mimetype list (`if e and e.mimetypes`). -/
def load_entries (env : ExecEnv) (home : String)
    (files : List (String × ParseOutcome)) : List Entry :=
  files.filterMap (fun pf =>
    match read_desktop env home pf.1 pf.2 with
    | some e => if e.mimetypes ≠ [] then some e else none
    | none => none)

/-! ## The aggregator: duplicate grouping (openwith_cleaner.py:269-276)

`defaultdict(list)` grouping: keys in first-occurrence order, each group
holding its members in input order.  It is embedded by its dictionary
semantics: the key list deduplicated keeping first occurrences, each key
paired with the sublist of entries carrying it. -/

/-- Deduplicate keeping the first occurrence of each element. -/
def dedupFirst {K : Type} [DecidableEq K] : List K → List K
  | [] => []
  | k :: ks => k :: dedupFirst (ks.filter (fun x => x ≠ k))
termination_by l => l.length
decreasing_by
  simp only [List.length_cons]
  exact Nat.lt_succ_of_le (List.length_filter_le _ _)

/-- Group a list by a key, keys in first-occurrence order, members in
input order. -/
def groupByKey {K : Type} [DecidableEq K] (key : Entry → K) (l : List Entry) :
    List (K × List Entry) :=
  (dedupFirst (l.map key)).map (fun k => (k, l.filter (fun e => key e = k)))

/-- The by-name grouping key: `e.name.strip().lower()`. -/
def name_key (e : Entry) : String := pyLower (pyStrip e.name)

/-- The by-name-and-command grouping key. -/
def name_cmd_key (e : Entry) : String × String :=
  (pyLower (pyStrip e.name), pyLower (pyStrip e.first_cmd))

/-- Keep a group iff it has more than one member and its first member's
name is non-empty (`len(g) > 1 and g[0].name`). -/
def isDupGroup (g : List Entry) : Bool :=
  decide (1 < g.length) &&
    (match g.head? with
     | some e => decide (e.name ≠ "")
     | none => false)

/-- `dup_name_groups` (openwith_cleaner.py:275). -/
def dup_name_groups (entries : List Entry) : List (List Entry) :=
  ((groupByKey name_key entries).map Prod.snd).filter isDupGroup

/-- `dup_name_cmd_groups` (openwith_cleaner.py:276). -/
def dup_name_cmd_groups (entries : List Entry) : List (List Entry) :=
  ((groupByKey name_cmd_key entries).map Prod.snd).filter isDupGroup

/-- `broken` (openwith_cleaner.py:268): broken, non-hidden entries. -/
def broken_entries (entries : List Entry) : List Entry :=
  entries.filter (fun e => e.broken && !e.hidden)

/-- The JSON payload (openwith_cleaner.py:296-302). -/
structure Payload where
  total_candidates : Nat
  broken : List Entry
  dup_by_name : List (List Entry)
  dup_by_name_cmd : List (List Entry)
deriving DecidableEq, Repr

/-- The payload as built from the loaded entries. -/
def json_payload (entries : List Entry) : Payload :=
  { total_candidates := entries.length
    broken := broken_entries entries
    dup_by_name := dup_name_groups entries
    dup_by_name_cmd := dup_name_cmd_groups entries }

/-! ## Keep selection for the name strategy (openwith_cleaner.py:211-217, 321) -/

/-- `provider_rank` (openwith_cleaner.py:211-217): the preferred provider
ranks 0, an unknown provider (`other` included) ranks 3, and an unknown
preference falls back to the `native` map. -/
def provider_rank (provider prefer : String) : Nat :=
  if prefer = "flatpak" then
    if provider = "flatpak" then 0
    else if provider = "native" then 1
    else if provider = "snap" then 2
    else 3
  else if prefer = "snap" then
    if provider = "snap" then 0
    else if provider = "native" then 1
    else if provider = "flatpak" then 2
    else 3
  else
    if provider = "native" then 0
    else if provider = "flatpak" then 1
    else if provider = "snap" then 2
    else 3

/-- The scope component of the keep tie-break: `0 if x.scope=='system' else 1`. -/
def scope_rank (scope : String) : Nat := if scope = "system" then 0 else 1

/-- The sort key of openwith_cleaner.py:321:
`(provider_rank(x.provider, prefer), 0 if x.scope=='system' else 1, x.path)`. -/
def dedup_key (prefer : String) (e : Entry) : Nat × Nat × String :=
  (provider_rank e.provider prefer, scope_rank e.scope, e.path)

/-- Python's `<` on the 3-tuple key (lexicographic). -/
def keyLt (a b : Nat × Nat × String) : Prop :=
  a.1 < b.1 ∨ (a.1 = b.1 ∧ (a.2.1 < b.2.1 ∨ (a.2.1 = b.2.1 ∧ a.2.2 < b.2.2)))

instance (a b : Nat × Nat × String) : Decidable (keyLt a b) := by
  unfold keyLt; infer_instance

/-- One comparison step of Python's `min`: the current minimum is replaced
only when the new element's key is strictly smaller. -/
def stepMin (prefer : String) (acc x : Entry) : Entry :=
  if keyLt (dedup_key prefer x) (dedup_key prefer acc) then x else acc

/-- `min(group, key=...)`: scan the list keeping the current element unless
the next one's key is strictly smaller, so of equal keys the first wins. -/
def keep_by_name (prefer : String) : List Entry → Option Entry
  | [] => none
  | e :: rest => some (rest.foldl (stepMin prefer) e)

/-- The index of the kept entry within its group: `min` returns the first
object attaining the minimal key, i.e. the first occurrence of the kept
value (used to model the `e is keep` identity test of the hide loop). -/
def keep_by_name_idx (prefer : String) (g : List Entry) : Nat :=
  match keep_by_name prefer g with
  | none => 0
  | some k => g.findIdx (fun x => decide (x = k))

/-- The keep of the name+cmd strategy (openwith_cleaner.py:333-340): the
first `scope=='system'` member, else the group's first member. -/
def keep_sys_idx (g : List Entry) : Nat :=
  match g.findIdx? (fun e => e.scope = "system") with
  | some i => i
  | none => 0

/-! ## The mimeapps cleaner (`clean_mimeapps`, openwith_cleaner.py:219-252)

The association file is modelled in parsed form: an ordered list of
sections, each an ordered list of key/value pairs (what `configparser`
holds after `read_file`; re-parsing the file `cfg.write` produced yields
the same structure, which is how the on-disk state after a rewrite is
represented here).  `none` stands for an absent file. -/

/-- A parsed mimeapps.list: sections, each with its key/value pairs. -/
abbrev MimeFile : Type := List (String × List (String × String))

/-- The sections `clean_mimeapps` touches. -/
def TARGET_SECTIONS : List String := ["Added Associations", "Default Applications"]

/-- The item loop of `clean_mimeapps`: drop identifiers not among the
discovered descriptor file names (counted missing), drop repeats after the
first occurrence (counted duplicate), keep the rest in order.  Returns
`(survivors, removed_dup, removed_missing)`. -/
def clean_items (existing seen : List String) : List String → List String × Nat × Nat
  | [] => ([], 0, 0)
  | it :: rest =>
    if it ∉ existing then
      let r := clean_items existing seen rest
      (r.1, r.2.1, r.2.2 + 1)
    else if it ∈ seen then
      let r := clean_items existing seen rest
      (r.1, r.2.1 + 1, r.2.2)
    else
      let r := clean_items existing (it :: seen) rest
      (it :: r.1, r.2.1, r.2.2)

/-- `';'.join(new) + (';' if new else '')`. -/
def joinItems (nw : List String) : String :=
  String.mk (joinCh ';' (nw.map String.data)) ++ (if nw = [] then "" else ";")

/-- `[x for x in val.split(';') if x]`: the value's identifiers. -/
def itemsOf (val : String) : List String :=
  ((splitCh ';' val.data).filter (fun l => l ≠ [])).map String.mk

/-- Clean one association value: split on `;`, drop empty tokens, run the
item loop, rejoin with a trailing `;` when non-empty. -/
def clean_value (existing : List String) (val : String) : String × Nat × Nat :=
  let r := clean_items existing [] (itemsOf val)
  (joinItems r.1, r.2.1, r.2.2)

/-- Clean every key of one section, tracking whether any value changed.
Returns `(pairs, changed, removed_dup, removed_missing)`. -/
def clean_kvs (existing : List String) :
    List (String × String) → List (String × String) × Bool × Nat × Nat
  | [] => ([], false, 0, 0)
  | (k, v) :: rest =>
    let cv := clean_value existing v
    let r := clean_kvs existing rest
    ((k, cv.1) :: r.1, decide (cv.1 ≠ v) || r.2.1, cv.2.1 + r.2.2.1, cv.2.2 + r.2.2.2)

/-- Clean the target sections of the parsed file. -/
def clean_sections (existing : List String) :
    MimeFile → MimeFile × Bool × Nat × Nat
  | [] => ([], false, 0, 0)
  | (sec, kvs) :: rest =>
    let r := clean_sections existing rest
    if sec ∈ TARGET_SECTIONS then
      let ck := clean_kvs existing kvs
      ((sec, ck.1) :: r.1, ck.2.1 || r.2.1, ck.2.2.1 + r.2.2.1, ck.2.2.2 + r.2.2.2)
    else ((sec, kvs) :: r.1, r.2.1, r.2.2.1, r.2.2.2)

/-- `clean_mimeapps` (openwith_cleaner.py:219-252): an absent file cleans
to `(0,0)` with no rewrite; otherwise the target sections are cleaned and
the file rewritten iff some value changed.  Returns the resulting on-disk
state (in parsed form), whether a rewrite happened, and the two counts. -/
def clean_mimeapps (file : Option MimeFile) (existing : List String) :
    Option MimeFile × Bool × Nat × Nat :=
  match file with
  | none => (none, false, 0, 0)
  | some secs =>
    let r := clean_sections existing secs
    (some r.1, r.2.1, r.2.2.1, r.2.2.2)

/-! ## File-system mutation (openwith_cleaner.py:172-209)

Mutations are modelled as explicit operation lists.  A helper that catches
an exception and skips its item is embedded as a total function whose
failing branch performs no completed write/move, emits the diagnostic the
`except` arm prints, and returns the original path. -/

/-- A completed file-system operation. -/
inductive FsOp where
  | mkdir (path : String)
  | write (path : String) (content : String)
  | move (src dst : String)
deriving DecidableEq, Repr

/-- Does an operation delete or modify the object at `p`?  `mkdir` with
`exist_ok=True` touches nothing that exists. -/
def deletesOrModifies (op : FsOp) (p : String) : Bool :=
  match op with
  | .mkdir _ => false
  | .write q _ => q = p
  | .move src dst => src = p || dst = p

/-- The completed file writes among a list of operations. -/
def writesOf (ops : List FsOp) : List (String × String) :=
  ops.filterMap (fun op =>
    match op with
    | .write p c => some (p, c)
    | _ => none)

/-- The per-item slice of the external world a mutation helper consults:
whether the user file exists, whether the move succeeds, what reading the
system file returns (`none` = the read raised), whether the write
succeeds. -/
structure ItemCtx where
  itemExists : Bool
  moveOk : Bool
  readRes : Option String
  writeOk : Bool
deriving Repr

/-- What one mutation helper call did: its completed operations, the path
it returned, and the diagnostic it printed (if any). -/
structure MutResult where
  ops : List FsOp
  ret : String
  msg : Option String
deriving DecidableEq, Repr

/-- `~/.local/share/applications` (`ensure_user_dir`,
openwith_cleaner.py:172-175). -/
def userAppDir (home : String) : String := home ++ "/.local/share/applications"

/-- `str.splitlines()` for LF-terminated text (the program writes `\n`
line endings; descriptor files on the modelled system are LF-separated):
split on `'\n'`, a trailing newline producing no empty final line. -/
def splitNL (l : List Char) : List (List Char) :=
  if l.getLast? = some '\n' ∨ l = [] then (splitCh '\n' l).dropLast
  else splitCh '\n' l

/-- `content.splitlines()`. -/
def pySplitlines (s : String) : List String := (splitNL s.data).map String.mk

/-- `'\n'.join(lines)`. -/
def joinNL (ls : List String) : String := String.mk (joinCh '\n' (ls.map String.data))

/-- The NoDisplay rewrite loop of `set_nodisplay_override`
(openwith_cleaner.py:184-191): replace the first line starting with
`NoDisplay=` by `NoDisplay=true`, appending that line if none is found. -/
def setNoDisplayLines : List String → List String
  | [] => ["NoDisplay=true"]
  | l :: ls =>
    if pyStartsWith l "NoDisplay=" then "NoDisplay=true" :: ls
    else l :: setNoDisplayLines ls

/-- The content written for the shadow copy:
`'\n'.join(lines) + '\n'` after the NoDisplay rewrite. -/
def set_nodisplay_content (content : String) : String :=
  joinNL (setNoDisplayLines (pySplitlines content)) ++ "\n"

/-- `set_nodisplay_override` (openwith_cleaner.py:177-196): make the user
application directory, read the system file, write the shadow copy with
`NoDisplay=true` forced, return the copy's path; on a read or write
failure print `Failed to override …` and return the original path with no
completed write. -/
def set_nodisplay_override (home sysPath : String) (ctx : ItemCtx) : MutResult :=
  let ud := userAppDir home
  let dst := ud ++ "/" ++ pathName sysPath
  match ctx.readRes with
  | none => { ops := [.mkdir ud], ret := sysPath
              msg := some ("Failed to override " ++ sysPath) }
  | some content =>
    if ctx.writeOk then
      { ops := [.mkdir ud, .write dst (set_nodisplay_content content)], ret := dst
        msg := none }
    else
      { ops := [.mkdir ud], ret := sysPath
        msg := some ("Failed to override " ++ sysPath) }

/-- `disable_user_file` (openwith_cleaner.py:198-209): make the disabled
folder, move the user file into it if it exists, return the destination;
on a move failure print `Failed to move …` and return the original path. -/
def disable_user_file (home userPath : String) (ctx : ItemCtx) : MutResult :=
  let dd := userAppDir home ++ "/.disabled"
  let dst := dd ++ "/" ++ pathName userPath
  if ctx.itemExists then
    if ctx.moveOk then { ops := [.mkdir dd, .move userPath dst], ret := dst, msg := none }
    else { ops := [.mkdir dd], ret := userPath
           msg := some ("Failed to move " ++ userPath) }
  else { ops := [.mkdir dd], ret := dst, msg := none }

/-- Hide one entry the scope-dependent way (openwith_cleaner.py:310-315,
326-331). -/
def hide_entry (home : String) (ctx : String → ItemCtx) (e : Entry) : MutResult :=
  if e.scope = "user" then disable_user_file home e.path (ctx e.path)
  else set_nodisplay_override home e.path (ctx e.path)

/-- One record of the fix-broken loop. -/
structure ItemReport where
  entryPath : String
  res : MutResult
deriving DecidableEq, Repr

/-- The `--fix-broken` loop (openwith_cleaner.py:306-315): every broken
entry is processed in order; a helper's failure is local to its item. -/
def fix_broken_loop (home : String) (ctx : String → ItemCtx)
    (broken : List Entry) : List ItemReport :=
  broken.map (fun e => { entryPath := e.path, res := hide_entry home ctx e })

/-- Hide every member of a group except the one at `keepIdx` (the `e is
keep` identity test skips exactly the first occurrence of the kept
object). -/
def hide_group (home : String) (ctx : String → ItemCtx) (g : List Entry)
    (keepIdx : Nat) : List MutResult :=
  (g.enum.filter (fun ie => ie.1 ≠ keepIdx)).map (fun ie => hide_entry home ctx ie.2)

/-- The `--hide-duplicates` action (openwith_cleaner.py:317-350): the name
strategy and/or the name+cmd strategy, per `--strategy`. -/
def hide_duplicates_results (home : String) (ctx : String → ItemCtx)
    (strategy prefer : String) (entries : List Entry) : List MutResult :=
  (if strategy = "name" ∨ strategy = "auto" then
    ((dup_name_groups entries).map
      (fun g => hide_group home ctx g (keep_by_name_idx prefer g))).flatten
   else []) ++
  (if strategy = "name+cmd" ∨ strategy = "auto" then
    ((dup_name_cmd_groups entries).map
      (fun g => hide_group home ctx g (keep_sys_idx g))).flatten
   else [])

/-! ## The driver (`main`, openwith_cleaner.py:254-363) -/

/-- The parsed command line. -/
structure Args where
  scan : Bool
  fix_broken : Bool
  hide_duplicates : Bool
  fix_mimeapps : Bool
  strategy : String
  prefer : String
  json : Option String
deriving Repr

/-- The external world one run sees: the resolution environment, the home
directory, the discovered descriptor files with their parse outcomes, the
per-path mutation contexts, and the parsed mimeapps.list (absent =
`none`). -/
structure World where
  env : ExecEnv
  home : String
  files : List (String × ParseOutcome)
  ctx : String → ItemCtx
  mimeapps : Option MimeFile

/-- What one run produced: the JSON report (path and payload) if
requested, the fix-broken reports, the hide-duplicates results, and the
mimeapps cleaning outcome. -/
structure MainResult where
  jsonOut : Option (String × Payload)
  fixBrokenReports : List ItemReport
  hideDupResults : List MutResult
  mimeResult : Option (Option MimeFile × Bool × Nat × Nat)

/-- `main` (openwith_cleaner.py:254-363): load the entries once, compute
the broken list and both duplicate groupings from them, emit the JSON
payload from those sets, then run whichever mutating actions were
requested. -/
def main_model (w : World) (args : Args) : MainResult :=
  let entries := load_entries w.env w.home w.files
  let all_desktop_ids := entries.map (fun e => pathName e.path)
  let broken := broken_entries entries
  { jsonOut := args.json.map (fun p => (p, json_payload entries))
    fixBrokenReports :=
      if args.fix_broken then fix_broken_loop w.home w.ctx broken else []
    hideDupResults :=
      if args.hide_duplicates then
        hide_duplicates_results w.home w.ctx args.strategy args.prefer entries
      else []
    mimeResult :=
      if args.fix_mimeapps then some (clean_mimeapps w.mimeapps all_desktop_ids)
      else none }

/-! ## Claim theorems -/

/-- The first branch of `looks_broken` is not taken when the TryExec hint
is empty or resolves. -/
lemma tryexec_cond_false {env : ExecEnv} {t : String}
    (ht : t = "" ∨ which_exists env t = true) :
    ¬(t ≠ "" ∧ which_exists env t = false) := by
  rcases ht with h | h
  · exact fun hh => hh.1 h
  · exact fun hh => by simp [h] at hh

/-- C1: `looks_broken` evaluates in exactly the claimed precedence: (1) a
declared, non-resolving TryExec hint makes the entry broken with a reason
naming the hint; (2) else an empty resolved first command gives
`Empty Exec`; (3) else a command whose base name (or the command itself)
is in the wrapper set is broken iff the wrapper itself fails to resolve;
(4) else the entry is broken iff the resolved command fails to resolve;
and a healthy result always carries an empty reason string. -/
theorem C1_looks_broken_precedence (env : ExecEnv) (e t : String) :
    (t ≠ "" → which_exists env t = false →
      looks_broken env e t = (true, "TryExec not found: " ++ t))
    ∧ ((t = "" ∨ which_exists env t = true) → extract_first_command e = "" →
      looks_broken env e t = (true, "Empty Exec"))
    ∧ ((t = "" ∨ which_exists env t = true) → extract_first_command e ≠ "" →
      (pathName (extract_first_command e) ∈ WRAPPER_CMDS ∨
        extract_first_command e ∈ WRAPPER_CMDS) →
      looks_broken env e t =
        (if which_exists env (extract_first_command e) = false then
          (true, "Wrapper not found in PATH: " ++ extract_first_command e)
         else (false, "")))
    ∧ ((t = "" ∨ which_exists env t = true) → extract_first_command e ≠ "" →
      ¬(pathName (extract_first_command e) ∈ WRAPPER_CMDS ∨
        extract_first_command e ∈ WRAPPER_CMDS) →
      looks_broken env e t =
        (if which_exists env (extract_first_command e) = false then
          (true, "Executable not found: " ++ extract_first_command e)
         else (false, "")))
    ∧ ((looks_broken env e t).1 = false → (looks_broken env e t).2 = "") := by
  refine ⟨?_, ?_, ?_, ?_, ?_⟩
  · intro h1 h2
    unfold looks_broken
    rw [if_pos ⟨h1, h2⟩]
  · intro ht hc
    unfold looks_broken
    rw [if_neg (tryexec_cond_false ht), if_pos hc]
  · intro ht hc hw
    unfold looks_broken
    rw [if_neg (tryexec_cond_false ht), if_neg hc, if_pos hw]
  · intro ht hc hw
    unfold looks_broken
    rw [if_neg (tryexec_cond_false ht), if_neg hc, if_neg hw]
  · unfold looks_broken
    split_ifs <;> simp

/-- C1 exercised at concrete inputs: every branch of the precedence is
reachable. -/
theorem C1_witness :
    looks_broken envBash "gedit %U" "ghost" = (true, "TryExec not found: ghost")
    ∧ looks_broken envBash "" "" = (true, "Empty Exec")
    ∧ looks_broken envBash "bash /gone.sh" "" = (false, "")
    ∧ looks_broken envBash "ghostapp" "" = (true, "Executable not found: ghostapp") := by
  refine ⟨?_, ?_, ?_, ?_⟩
  · exact (C1_looks_broken_precedence envBash "gedit %U" "ghost").1 (by decide) (by decide)
  · exact (C1_looks_broken_precedence envBash "" "").2.1 (Or.inl rfl) (by decide)
  · have h := (C1_looks_broken_precedence envBash "bash /gone.sh" "").2.2.1
      (Or.inl rfl) (by decide) (by decide)
    rw [h]; decide
  · have h := (C1_looks_broken_precedence envBash "ghostapp" "").2.2.2.1
      (Or.inl rfl) (by decide) (by decide)
    rw [h]; decide

/-- C2, counterexample to the claim as stated: a resolving wrapper command
(`bash`) does not shield the entry from a declared TryExec hint that fails
to resolve — `looks_broken` is not `(false, '')` for every TryExec field. -/
theorem C2_counterexample :
    (pathName (extract_first_command "bash /missing/payload.sh") ∈ WRAPPER_CMDS ∨
      extract_first_command "bash /missing/payload.sh" ∈ WRAPPER_CMDS)
    ∧ which_exists envBash (extract_first_command "bash /missing/payload.sh") = true
    ∧ looks_broken envBash "bash /missing/payload.sh" "ghost" ≠ (false, "") := by
  decide

/-- C2 (amended): when the resolved first command is a wrapper-set token
that itself resolves AND the TryExec field is empty or itself resolves,
the entry is never classified broken, regardless of the remaining Exec
tokens. -/
theorem C2_wrapper_resolving_not_broken (env : ExecEnv) (e t : String)
    (hw : pathName (extract_first_command e) ∈ WRAPPER_CMDS ∨
      extract_first_command e ∈ WRAPPER_CMDS)
    (hres : which_exists env (extract_first_command e) = true)
    (ht : t = "" ∨ which_exists env t = true) :
    looks_broken env e t = (false, "") := by
  have hcmd : extract_first_command e ≠ "" := by
    intro h
    rw [h] at hres
    simp [which_exists] at hres
  unfold looks_broken
  rw [if_neg (tryexec_cond_false ht), if_neg hcmd, if_pos hw,
    if_neg (by simp [hres])]

/-- C2's amended theorem at a concrete input: the wrapped target
`/missing/payload.sh` does not exist in `envBash`, yet the entry is
healthy. -/
theorem C2_witness :
    looks_broken envBash "bash /missing/payload.sh" "" = (false, "") :=
  C2_wrapper_resolving_not_broken envBash "bash /missing/payload.sh" ""
    (by decide) (by decide) (Or.inl rfl)

/-! ### Split/join lemmas shared by the mimeapps and shadow-copy proofs -/

/-- No piece produced by `splitCh` contains the separator. -/
lemma mem_splitCh_no_sep (c : Char) (l : List Char) :
    ∀ p ∈ splitCh c l, c ∉ p := by
  induction l with
  | nil =>
    intro p hp
    simp only [splitCh, List.mem_singleton] at hp
    subst hp
    simp
  | cons a rest ih =>
    intro p hp
    simp only [splitCh] at hp
    by_cases h : a = c
    · rw [if_pos h] at hp
      rcases List.mem_cons.1 hp with rfl | hp
      · simp
      · exact ih p hp
    · rw [if_neg h] at hp
      revert hp
      cases hs : splitCh c rest with
      | nil =>
        intro hp
        rcases List.mem_cons.1 hp with rfl | hp
        · intro hc
          simp only [List.mem_singleton] at hc
          exact h hc.symm
        · exact absurd hp (by simp)
      | cons q qs =>
        intro hp
        rcases List.mem_cons.1 hp with rfl | hp
        · intro hc
          rcases List.mem_cons.1 hc with hc | hc
          · exact h hc.symm
          · exact ih q (by rw [hs]; exact List.mem_cons_self q qs) hc
        · exact ih p (by rw [hs]; exact List.mem_cons_of_mem q hp)

/-- Splitting `p ++ c :: r` when `p` is separator-free peels off `p`. -/
lemma splitCh_append_sep (c : Char) (r : List Char) :
    ∀ (p : List Char), c ∉ p → splitCh c (p ++ c :: r) = p :: splitCh c r := by
  intro p
  induction p with
  | nil =>
    intro _
    simp [splitCh]
  | cons x p ih =>
    intro hp
    have hx : x ≠ c := fun h => hp (by rw [← h]; exact List.mem_cons_self x p)
    have hcp : c ∉ p := fun hc => hp (List.mem_cons_of_mem x hc)
    have hrec := ih hcp
    show splitCh c (x :: (p ++ c :: r)) = (x :: p) :: splitCh c r
    simp only [splitCh, if_neg hx, hrec]

/-- Splitting a separator-joined, separator-terminated list of
separator-free pieces recovers the pieces plus one trailing empty piece. -/
lemma splitCh_join_sep (c : Char) :
    ∀ (ps : List (List Char)), ps ≠ [] → (∀ p ∈ ps, c ∉ p) →
      splitCh c (joinCh c ps ++ [c]) = ps ++ [[]] := by
  intro ps
  induction ps with
  | nil => intro h _; exact absurd rfl h
  | cons p ps ih =>
    intro _ hp
    cases ps with
    | nil =>
      have h1 : joinCh c [p] = p := rfl
      rw [h1]
      have h2 := splitCh_append_sep c [] p (hp p (List.mem_cons_self p []))
      simpa using h2
    | cons q ps' =>
      have hj : joinCh c (p :: q :: ps') = p ++ c :: joinCh c (q :: ps') := rfl
      rw [hj, List.append_assoc, List.cons_append,
        splitCh_append_sep c (joinCh c (q :: ps') ++ [c]) p
          (hp p (List.mem_cons_self p _)),
        ih (by simp) (fun x hx => hp x (List.mem_cons_of_mem p hx))]
      rfl

/-- C6: the association value `"a.desktop;missing.desktop;a.desktop;"`,
with only `a.desktop` among the discovered descriptor file names, cleans
to `"a.desktop;"`, the file is rewritten, and the removal counts are
exactly one duplicate and one missing. -/
theorem C6_round_trip :
    clean_mimeapps
      (some [("Added Associations",
        [("text/plain", "a.desktop;missing.desktop;a.desktop;")])])
      ["a.desktop"]
    = (some [("Added Associations", [("text/plain", "a.desktop;")])], true, 1, 1) := by
  decide

/-- Every entry `load_entries` retains has a non-empty mimetype list. -/
lemma mem_load_entries_mimetypes {env : ExecEnv} {home : String}
    {files : List (String × ParseOutcome)} {x : Entry}
    (hx : x ∈ load_entries env home files) : x.mimetypes ≠ [] := by
  simp only [load_entries, List.mem_filterMap] at hx
  obtain ⟨pf, -, hmap⟩ := hx
  revert hmap
  cases read_desktop env home pf.1 pf.2 with
  | none => intro hmap; exact absurd hmap (by simp)
  | some e =>
    dsimp only
    by_cases hm : e.mimetypes ≠ []
    · rw [if_pos hm]
      intro hmap
      injection hmap with h
      rw [← h]
      exact hm
    · rw [if_neg hm]
      intro hmap
      exact absurd hmap (by simp)

/-- A member of a group of `groupByKey` is a member of the grouped list. -/
lemma mem_groupByKey {K : Type} [DecidableEq K] {key : Entry → K}
    {l : List Entry} {kg : K × List Entry} (h : kg ∈ groupByKey key l)
    {x : Entry} (hx : x ∈ kg.2) : x ∈ l := by
  unfold groupByKey at h
  rcases List.mem_map.1 h with ⟨k, -, rfl⟩
  exact (List.mem_filter.1 hx).1

/-- A member of a duplicate group is a member of the entry list. -/
lemma mem_dup_groups {K : Type} [DecidableEq K] {key : Entry → K}
    {entries : List Entry} {g : List Entry}
    (hg : g ∈ ((groupByKey key entries).map Prod.snd).filter isDupGroup)
    {x : Entry} (hx : x ∈ g) : x ∈ entries := by
  have hg' := (List.mem_filter.1 hg).1
  rcases List.mem_map.1 hg' with ⟨kg, hkg, rfl⟩
  exact mem_groupByKey hkg hx

/-- C4: the synthetic entry built for a descriptor whose parse raised an
exception is broken with a `Parse error: …` reason and an empty mimetype
list, and — because `load_entries` retains only entries with a non-empty
mimetype list — it never appears in the loaded entry list, in the
broken-entry report, or in any duplicate group (the JSON payload and the
counts are computed from exactly these sets). -/
theorem C4_parse_error_invisible (env : ExecEnv) (home p msg : String)
    (files : List (String × ParseOutcome)) (ent : Entry)
    (h : read_desktop env home p (.failure msg) = some ent) :
    (ent.broken = true ∧ ent.reason = "Parse error: " ++ msg ∧ ent.mimetypes = [])
    ∧ ent ∉ load_entries env home files
    ∧ ent ∉ broken_entries (load_entries env home files)
    ∧ (∀ g ∈ dup_name_groups (load_entries env home files), ent ∉ g)
    ∧ (∀ g ∈ dup_name_cmd_groups (load_entries env home files), ent ∉ g) := by
  have hent : ent.broken = true ∧ ent.reason = "Parse error: " ++ msg ∧
      ent.mimetypes = [] := by
    unfold read_desktop at h
    injection h with h'
    subst h'
    exact ⟨rfl, rfl, rfl⟩
  have hnot : ent ∉ load_entries env home files := fun hmem =>
    (mem_load_entries_mimetypes hmem) hent.2.2
  refine ⟨hent, hnot, ?_, ?_, ?_⟩
  · intro hmem
    exact hnot (List.mem_filter.1 hmem).1
  · intro g hg hx
    exact hnot (@mem_dup_groups String _ name_key _ _ hg _ hx)
  · intro g hg hx
    exact hnot (@mem_dup_groups (String × String) _ name_cmd_key _ _ hg _ hx)

/-- The synthetic entry of a parse failure at a system path. -/
def parseErrW : Entry :=
  { path := "/usr/share/applications/x.desktop", scope := "system", name := ""
    exec_line := "", tryexec := "", mimetypes := [], hidden := false
    nodisplay := false, entry_type := "Application", first_cmd := ""
    provider := "other", broken := true, reason := "Parse error: boom" }

/-- A concrete scan input with one failing and one healthy descriptor. -/
def filesW : List (String × ParseOutcome) :=
  [("/usr/share/applications/x.desktop", ParseOutcome.failure "boom"),
   ("/usr/share/applications/ok.desktop",
     ParseOutcome.fields (some "Application") (some "Ok") (some "gedit %U")
       none (some "text/plain;") false false)]

/-- C4 at a concrete input: the parse-error entry is absent from the
loaded entry list. -/
theorem C4_witness : parseErrW ∉ load_entries envBash "/home/u" filesW :=
  (C4_parse_error_invisible envBash "/home/u" "/usr/share/applications/x.desktop"
    "boom" filesW parseErrW (by decide)).2.1

/-- C9: a failing move during `disable_user_file` and a failing read or
write during `set_nodisplay_override` are recovered locally — the helper
emits a diagnostic and returns the original path — and the fix-broken
loop always produces one report per broken entry, for every pattern of
per-item outcomes. -/
theorem C9_mutation_failures_local (home p : String) (ctx : ItemCtx)
    (ctxf : String → ItemCtx) (entries : List Entry) :
    (ctx.itemExists = true → ctx.moveOk = false →
      (disable_user_file home p ctx).ret = p ∧
      (disable_user_file home p ctx).msg.isSome = true)
    ∧ ((ctx.readRes = none ∨ ctx.writeOk = false) →
      (set_nodisplay_override home p ctx).ret = p ∧
      (set_nodisplay_override home p ctx).msg.isSome = true)
    ∧ (fix_broken_loop home ctxf entries).map ItemReport.entryPath
        = entries.map Entry.path := by
  refine ⟨?_, ?_, ?_⟩
  · intro h1 h2
    unfold disable_user_file
    rw [if_pos h1, if_neg (by simp [h2])]
    exact ⟨rfl, rfl⟩
  · intro h
    unfold set_nodisplay_override
    cases hr : ctx.readRes with
    | none => exact ⟨rfl, rfl⟩
    | some c =>
      have hw : ctx.writeOk = false := by
        rcases h with h | h
        · rw [hr] at h; exact absurd h (by simp)
        · exact h
      dsimp only
      rw [if_neg (by simp [hw])]
      exact ⟨rfl, rfl⟩
  · unfold fix_broken_loop
    rw [List.map_map]
    rfl

/-- A per-item context in which every mutation fails. -/
def failCtx : ItemCtx :=
  { itemExists := true, moveOk := false, readRes := none, writeOk := false }

/-- C9 at concrete inputs: both helpers fail locally, and the loop over a
batch containing failing items still reports every item. -/
theorem C9_witness :
    (disable_user_file "/home/u" "/home/u/.local/share/applications/a.desktop"
      failCtx).ret = "/home/u/.local/share/applications/a.desktop"
    ∧ (set_nodisplay_override "/home/u" "/usr/share/applications/b.desktop"
      failCtx).msg.isSome = true
    ∧ (fix_broken_loop "/home/u" (fun _ => failCtx) [parseErrW]).map
        ItemReport.entryPath = [parseErrW].map Entry.path := by
  refine ⟨?_, ?_, ?_⟩
  · exact ((C9_mutation_failures_local "/home/u"
      "/home/u/.local/share/applications/a.desktop" failCtx (fun _ => failCtx)
      []).1 rfl rfl).1
  · exact ((C9_mutation_failures_local "/home/u"
      "/usr/share/applications/b.desktop" failCtx (fun _ => failCtx)
      []).2.1 (Or.inl rfl)).2
  · exact (C9_mutation_failures_local "/home/u" "/usr/share/applications/b.desktop"
      failCtx (fun _ => failCtx) [parseErrW]).2.2

/-- C10: the JSON report is a pure projection of the scan: two runs on the
same world, differing arbitrarily in the mutating flags `--fix-broken`,
`--hide-duplicates` and `--fix-mimeapps`, produce the same JSON output
(path and payload: total count, broken entries, both duplicate-group
listings). -/
theorem C10_json_pure_projection (w : World) (a : Args)
    (f₁ h₁ m₁ f₂ h₂ m₂ : Bool) :
    (main_model w
      { a with fix_broken := f₁, hide_duplicates := h₁, fix_mimeapps := m₁ }).jsonOut
    = (main_model w
      { a with fix_broken := f₂, hide_duplicates := h₂, fix_mimeapps := m₂ }).jsonOut :=
  rfl

/-! ### The shadow-copy content transformation (C8) -/

/-- `setNoDisplayLines` never returns an empty line list. -/
lemma setNoDisplayLines_ne_nil (ls : List String) : setNoDisplayLines ls ≠ [] := by
  cases ls with
  | nil => simp [setNoDisplayLines]
  | cons l ls =>
    simp only [setNoDisplayLines]
    split <;> simp

/-- Every line of the transformed content is a line of the original or the
forced `NoDisplay=true` line. -/
lemma mem_setNoDisplayLines {ls : List String} {x : String}
    (hx : x ∈ setNoDisplayLines ls) : x ∈ ls ∨ x = "NoDisplay=true" := by
  induction ls with
  | nil =>
    simp only [setNoDisplayLines, List.mem_singleton] at hx
    exact Or.inr hx
  | cons l ls ih =>
    simp only [setNoDisplayLines] at hx
    by_cases h : pyStartsWith l "NoDisplay=" = true
    · rw [if_pos h] at hx
      rcases List.mem_cons.1 hx with rfl | hx
      · exact Or.inr rfl
      · exact Or.inl (List.mem_cons_of_mem l hx)
    · rw [if_neg h] at hx
      rcases List.mem_cons.1 hx with rfl | hx
      · exact Or.inl (List.mem_cons_self _ _)
      · rcases ih hx with h' | h'
        · exact Or.inl (List.mem_cons_of_mem l h')
        · exact Or.inr h'

/-- When no line declares `NoDisplay=`, the rewrite appends the forced
line and keeps every original line. -/
lemma setNoDisplayLines_append (ls : List String)
    (h : ∀ l ∈ ls, pyStartsWith l "NoDisplay=" = false) :
    setNoDisplayLines ls = ls ++ ["NoDisplay=true"] := by
  induction ls with
  | nil => rfl
  | cons l ls ih =>
    have hl := h l (List.mem_cons_self l ls)
    simp only [setNoDisplayLines]
    rw [if_neg (by simp [hl]), ih (fun x hx => h x (List.mem_cons_of_mem l hx))]
    rfl

/-- The first `NoDisplay=` line is replaced in place; all other lines are
kept unchanged. -/
lemma setNoDisplayLines_replace (pre : List String) (lnd : String)
    (post : List String)
    (hpre : ∀ x ∈ pre, pyStartsWith x "NoDisplay=" = false)
    (hl : pyStartsWith lnd "NoDisplay=" = true) :
    setNoDisplayLines (pre ++ lnd :: post) = pre ++ "NoDisplay=true" :: post := by
  induction pre with
  | nil => simp only [List.nil_append, setNoDisplayLines, if_pos hl]
  | cons x pre ih =>
    have hx := hpre x (List.mem_cons_self x pre)
    simp only [List.cons_append, setNoDisplayLines]
    rw [if_neg (by simp [hx])]
    exact congrArg (List.cons x) (ih (fun y hy => hpre y (List.mem_cons_of_mem x hy)))

/-- No line produced by `splitNL` contains a newline. -/
lemma mem_splitNL_no_nl {l : List Char} {p : List Char} (hp : p ∈ splitNL l) :
    '\n' ∉ p := by
  unfold splitNL at hp
  split at hp
  · exact mem_splitCh_no_sep '\n' l p ((List.dropLast_prefix _).subset hp)
  · exact mem_splitCh_no_sep '\n' l p hp

/-- No line of `pySplitlines` contains a newline. -/
lemma mem_pySplitlines_no_nl {s x : String} (hx : x ∈ pySplitlines s) :
    '\n' ∉ x.data := by
  unfold pySplitlines at hx
  rcases List.mem_map.1 hx with ⟨p, hp, rfl⟩
  exact mem_splitNL_no_nl hp

/-- Splitting a newline-joined, newline-terminated list of newline-free
lines recovers the lines. -/
lemma splitNL_join (ls : List (List Char)) (hne : ls ≠ [])
    (hp : ∀ p ∈ ls, '\n' ∉ p) :
    splitNL (joinCh '\n' ls ++ ['\n']) = ls := by
  unfold splitNL
  rw [if_pos (Or.inl (by simp)), splitCh_join_sep '\n' ls hne hp]
  simp

/-- `splitlines` of `'\n'.join(lines) + '\n'` recovers `lines`. -/
lemma pySplitlines_joinNL (ls : List String) (hne : ls ≠ [])
    (hp : ∀ s ∈ ls, '\n' ∉ s.data) :
    pySplitlines (joinNL ls ++ "\n") = ls := by
  unfold pySplitlines joinNL
  have hdata : (String.mk (joinCh '\n' (ls.map String.data)) ++ "\n").data
      = joinCh '\n' (ls.map String.data) ++ ['\n'] := rfl
  rw [hdata, splitNL_join (ls.map String.data) (by simpa using hne)
    (by intro p hp'
        rcases List.mem_map.1 hp' with ⟨s, hs, rfl⟩
        exact hp s hs)]
  rw [List.map_map]
  have hid : (String.mk ∘ String.data) = id := funext fun s => rfl
  rw [hid, List.map_id]

/-- The written shadow copy's lines are exactly the original's lines with
the NoDisplay rewrite applied. -/
lemma set_nodisplay_content_lines (content : String) :
    pySplitlines (set_nodisplay_content content)
      = setNoDisplayLines (pySplitlines content) := by
  unfold set_nodisplay_content
  apply pySplitlines_joinNL
  · exact setNoDisplayLines_ne_nil _
  · intro s hs
    rcases mem_setNoDisplayLines hs with h | h
    · exact mem_pySplitlines_no_nl h
    · rw [h]; decide

/-- C8: hiding a system-scope entry performs no deletion or modification
of the original system descriptor: the only completed file write is the
user-scope shadow copy — same file name under the user application
directory with content derived from the original by the NoDisplay
transformation — and that transformation replaces the first existing
`NoDisplay=` line (else appends `NoDisplay=true`), leaving every other
line of the copy equal to the original's. -/
theorem C8_shadow_override_frame (home sysPath : String) (ctx : ItemCtx) :
    (∀ pc ∈ writesOf (set_nodisplay_override home sysPath ctx).ops,
      pc.1 = userAppDir home ++ "/" ++ pathName sysPath ∧
      ∃ content, ctx.readRes = some content ∧ pc.2 = set_nodisplay_content content)
    ∧ (sysPath ≠ userAppDir home ++ "/" ++ pathName sysPath →
      ∀ op ∈ (set_nodisplay_override home sysPath ctx).ops,
        deletesOrModifies op sysPath = false)
    ∧ (∀ ls : List String, (∀ l ∈ ls, pyStartsWith l "NoDisplay=" = false) →
      setNoDisplayLines ls = ls ++ ["NoDisplay=true"])
    ∧ (∀ (pre : List String) (lnd : String) (post : List String),
      (∀ x ∈ pre, pyStartsWith x "NoDisplay=" = false) →
      pyStartsWith lnd "NoDisplay=" = true →
      setNoDisplayLines (pre ++ lnd :: post) = pre ++ "NoDisplay=true" :: post)
    ∧ (∀ content, pySplitlines (set_nodisplay_content content)
        = setNoDisplayLines (pySplitlines content)) := by
  refine ⟨?_, ?_, setNoDisplayLines_append, setNoDisplayLines_replace,
    set_nodisplay_content_lines⟩
  · intro pc hpc
    unfold set_nodisplay_override at hpc
    cases hr : ctx.readRes with
    | none =>
      rw [hr] at hpc
      exact absurd hpc (by simp [writesOf])
    | some c =>
      rw [hr] at hpc
      dsimp only at hpc
      by_cases hw : ctx.writeOk = true
      · rw [if_pos hw] at hpc
        simp only [writesOf, List.filterMap] at hpc
        rcases List.mem_singleton.1 hpc with rfl
        exact ⟨rfl, c, rfl, rfl⟩
      · rw [if_neg hw] at hpc
        exact absurd hpc (by simp [writesOf])
  · intro hne op hop
    unfold set_nodisplay_override at hop
    cases hr : ctx.readRes with
    | none =>
      rw [hr] at hop
      dsimp only at hop
      rcases List.mem_singleton.1 hop with rfl
      rfl
    | some c =>
      rw [hr] at hop
      dsimp only at hop
      by_cases hw : ctx.writeOk = true
      · rw [if_pos hw] at hop
        rcases List.mem_cons.1 hop with rfl | hop
        · rfl
        · rcases List.mem_singleton.1 hop with rfl
          exact decide_eq_false (fun h => hne h.symm)
      · rw [if_neg hw] at hop
        rcases List.mem_singleton.1 hop with rfl
        rfl

/-- A per-item context whose read succeeds on a two-line descriptor. -/
def ctxOkW : ItemCtx :=
  { itemExists := true, moveOk := true
    readRes := some "[Desktop Entry]\nName=A", writeOk := true }

/-- C8 at concrete inputs: the append and replace behaviours of the
NoDisplay rewrite, and the single completed write of a shadow override
(path in the user application directory, content equal to the original
plus the forced line) touching nothing at the system path. -/
theorem C8_witness :
    (setNoDisplayLines ["[Desktop Entry]", "Name=A"]
      = ["[Desktop Entry]", "Name=A"] ++ ["NoDisplay=true"])
    ∧ (setNoDisplayLines (["[Desktop Entry]"] ++ "NoDisplay=false" :: ["Name=A"])
      = ["[Desktop Entry]"] ++ "NoDisplay=true" :: ["Name=A"])
    ∧ deletesOrModifies
        (FsOp.write "/home/u/.local/share/applications/a.desktop"
          "[Desktop Entry]\nName=A\nNoDisplay=true\n")
        "/usr/share/applications/a.desktop" = false := by
  refine ⟨?_, ?_, ?_⟩
  · exact (C8_shadow_override_frame "/home/u" "/usr/share/applications/a.desktop"
      ctxOkW).2.2.1 _ (by decide)
  · exact (C8_shadow_override_frame "/home/u" "/usr/share/applications/a.desktop"
      ctxOkW).2.2.2.1 _ _ _ (by decide) (by decide)
  · exact (C8_shadow_override_frame "/home/u" "/usr/share/applications/a.desktop"
      ctxOkW).2.1 (by decide) _ (by decide)

/-! ### Idempotence of the mimeapps cleaner (C7) -/

/-- Survivors of the item loop: drawn from the input, present among the
discovered descriptors, outside `seen`, and pairwise distinct. -/
lemma clean_items_spec (existing : List String) :
    ∀ (items seen : List String),
      (∀ x ∈ (clean_items existing seen items).1,
        x ∈ existing ∧ x ∉ seen ∧ x ∈ items)
      ∧ (clean_items existing seen items).1.Nodup := by
  intro items
  induction items with
  | nil =>
    intro seen
    exact ⟨fun x hx => absurd hx (by simp [clean_items]), by simp [clean_items]⟩
  | cons it rest ih =>
    intro seen
    by_cases h1 : it ∈ existing
    · by_cases h2 : it ∈ seen
      · have e2 : (clean_items existing seen (it :: rest)).1
            = (clean_items existing seen rest).1 := by
          simp only [clean_items, if_neg (not_not_intro h1), if_pos h2]
        rw [e2]
        exact ⟨fun x hx =>
          let h := (ih seen).1 x hx
          ⟨h.1, h.2.1, List.mem_cons_of_mem it h.2.2⟩, (ih seen).2⟩
      · have e3 : (clean_items existing seen (it :: rest)).1
            = it :: (clean_items existing (it :: seen) rest).1 := by
          simp only [clean_items, if_neg (not_not_intro h1), if_neg h2]
        rw [e3]
        constructor
        · intro x hx
          rcases List.mem_cons.1 hx with rfl | hx
          · exact ⟨h1, h2, List.mem_cons_self x rest⟩
          · obtain ⟨hxe, hxs, hxr⟩ := (ih (it :: seen)).1 x hx
            exact ⟨hxe, fun hm => hxs (List.mem_cons_of_mem it hm),
              List.mem_cons_of_mem it hxr⟩
        · refine List.nodup_cons.2 ⟨?_, (ih (it :: seen)).2⟩
          intro hmem
          exact ((ih (it :: seen)).1 it hmem).2.1 (List.mem_cons_self it seen)
    · have e1 : (clean_items existing seen (it :: rest)).1
          = (clean_items existing seen rest).1 := by
        simp only [clean_items, if_pos h1]
      rw [e1]
      exact ⟨fun x hx =>
        let h := (ih seen).1 x hx
        ⟨h.1, h.2.1, List.mem_cons_of_mem it h.2.2⟩, (ih seen).2⟩

/-- On a duplicate-free list of present identifiers the item loop removes
nothing and counts nothing. -/
lemma clean_items_fixed (existing : List String) :
    ∀ (items seen : List String), items.Nodup →
      (∀ x ∈ items, x ∈ existing ∧ x ∉ seen) →
      clean_items existing seen items = (items, 0, 0) := by
  intro items
  induction items with
  | nil => intro seen _ _; rfl
  | cons it rest ih =>
    intro seen hnd hx
    obtain ⟨h1, h2⟩ := hx it (List.mem_cons_self it rest)
    have e3 : clean_items existing seen (it :: rest)
        = (it :: (clean_items existing (it :: seen) rest).1,
           (clean_items existing (it :: seen) rest).2.1,
           (clean_items existing (it :: seen) rest).2.2) := by
      simp only [clean_items, if_neg (not_not_intro h1), if_neg h2]
    rw [e3, ih (it :: seen) (List.nodup_cons.1 hnd).2 ?_]
    · intro x hxr
      obtain ⟨hxe, hxs⟩ := hx x (List.mem_cons_of_mem it hxr)
      refine ⟨hxe, fun hmem => ?_⟩
      rcases List.mem_cons.1 hmem with rfl | hmem
      · exact (List.nodup_cons.1 hnd).1 hxr
      · exact hxs hmem

/-- Each identifier of a value is non-empty and semicolon-free. -/
lemma mem_itemsOf_prop {v x : String} (hx : x ∈ itemsOf v) :
    x.data ≠ [] ∧ ';' ∉ x.data := by
  rcases List.mem_map.1 hx with ⟨p, hp, rfl⟩
  have h1 := List.mem_filter.1 hp
  refine ⟨by simpa using h1.2, mem_splitCh_no_sep ';' v.data p h1.1⟩

/-- Splitting a rejoined survivor list recovers the survivors. -/
lemma itemsOf_joinItems (nw : List String)
    (hmem : ∀ x ∈ nw, x.data ≠ [] ∧ ';' ∉ x.data) :
    itemsOf (joinItems nw) = nw := by
  cases hnwe : nw with
  | nil => rfl
  | cons w ws =>
    have hdata : (joinItems (w :: ws)).data
        = joinCh ';' ((w :: ws).map String.data) ++ [';'] := rfl
    unfold itemsOf
    rw [hdata, splitCh_join_sep ';' ((w :: ws).map String.data) (by simp) ?hp]
    case hp =>
      intro p hp'
      rcases List.mem_map.1 hp' with ⟨s, hs, rfl⟩
      exact (hmem s (hnwe ▸ hs)).2
    rw [List.filter_append]
    have h1 : ((w :: ws).map String.data).filter (fun l => l ≠ [])
        = (w :: ws).map String.data := by
      apply List.filter_eq_self.2
      intro p hp'
      rcases List.mem_map.1 hp' with ⟨s, hs, rfl⟩
      exact decide_eq_true (hmem s (hnwe ▸ hs)).1
    have h2 : ([[]] : List (List Char)).filter (fun l => l ≠ []) = [] := rfl
    rw [h1, h2, List.append_nil, List.map_map]
    have hid : (String.mk ∘ String.data) = id := funext fun s => rfl
    rw [hid, List.map_id]

/-- Cleaning a rejoined clean survivor list changes nothing. -/
lemma clean_value_join_fixed (existing : List String) (nw : List String)
    (hmem : ∀ x ∈ nw, x ∈ existing ∧ x.data ≠ [] ∧ ';' ∉ x.data)
    (hnd : nw.Nodup) :
    clean_value existing (joinItems nw) = (joinItems nw, 0, 0) := by
  have hitems : itemsOf (joinItems nw) = nw :=
    itemsOf_joinItems nw (fun x hx => (hmem x hx).2)
  unfold clean_value
  rw [hitems, clean_items_fixed existing nw [] hnd
    (fun x hx => ⟨(hmem x hx).1, by simp⟩)]

/-- C7 at the value level: cleaning an already-cleaned value is the
identity with zero removal counts. -/
lemma clean_value_fixed (existing : List String) (v : String) :
    clean_value existing (clean_value existing v).1
      = ((clean_value existing v).1, 0, 0) := by
  have hspec := clean_items_spec existing (itemsOf v) []
  have h1 : (clean_value existing v).1
      = joinItems (clean_items existing [] (itemsOf v)).1 := rfl
  rw [h1]
  exact clean_value_join_fixed existing _
    (fun x hx => by
      obtain ⟨hxe, -, hxi⟩ := hspec.1 x hx
      obtain ⟨hd, hs⟩ := mem_itemsOf_prop hxi
      exact ⟨hxe, hd, hs⟩)
    hspec.2

/-- C7 at the section level. -/
lemma clean_kvs_fixed (existing : List String) :
    ∀ kvs : List (String × String),
      clean_kvs existing (clean_kvs existing kvs).1
        = ((clean_kvs existing kvs).1, false, 0, 0) := by
  intro kvs
  induction kvs with
  | nil => rfl
  | cons kv rest ih =>
    obtain ⟨k, v⟩ := kv
    simp only [clean_kvs]
    rw [clean_value_fixed existing v, ih]
    simp

/-- C7 at the file level. -/
lemma clean_sections_fixed (existing : List String) :
    ∀ secs : MimeFile,
      clean_sections existing (clean_sections existing secs).1
        = ((clean_sections existing secs).1, false, 0, 0) := by
  intro secs
  induction secs with
  | nil => rfl
  | cons sv rest ih =>
    obtain ⟨sec, kvs⟩ := sv
    by_cases hs : sec ∈ TARGET_SECTIONS
    · simp only [clean_sections, if_pos hs]
      rw [clean_kvs_fixed existing kvs, ih]
      simp
    · simp only [clean_sections, if_neg hs]
      rw [ih]

/-- C7: `clean_mimeapps` is idempotent — run a second time on the state
the first run left behind (for the same discovered descriptor set), it
removes nothing, counts `(0, 0)` and performs no rewrite, so the file
content stays byte-identical to the first pass's output. -/
theorem C7_clean_mimeapps_idempotent (file : Option MimeFile)
    (existing : List String) :
    clean_mimeapps (clean_mimeapps file existing).1 existing
      = ((clean_mimeapps file existing).1, false, 0, 0) := by
  cases file with
  | none => rfl
  | some secs =>
    simp only [clean_mimeapps]
    rw [clean_sections_fixed existing secs]

/-! ### Keep-selection determinism (C3) -/

/-- The tuple order is irreflexive. -/
lemma keyLt_irrefl (a : Nat × Nat × String) : ¬ keyLt a a := by
  rintro (h | ⟨-, h | ⟨-, h⟩⟩)
  · exact Nat.lt_irrefl _ h
  · exact Nat.lt_irrefl _ h
  · exact lt_irrefl _ h

/-- The tuple order is transitive. -/
lemma keyLt_trans {a b c : Nat × Nat × String}
    (h1 : keyLt a b) (h2 : keyLt b c) : keyLt a c := by
  unfold keyLt at *
  rcases h1 with h1 | ⟨e1, h1⟩
  · rcases h2 with h2 | ⟨e2, h2⟩
    · exact Or.inl (Nat.lt_trans h1 h2)
    · exact Or.inl (e2 ▸ h1)
  · rcases h2 with h2 | ⟨e2, h2⟩
    · exact Or.inl (e1 ▸ h2)
    · refine Or.inr ⟨e1.trans e2, ?_⟩
      rcases h1 with h1 | ⟨f1, h1⟩
      · rcases h2 with h2 | ⟨f2, h2⟩
        · exact Or.inl (Nat.lt_trans h1 h2)
        · exact Or.inl (f2 ▸ h1)
      · rcases h2 with h2 | ⟨f2, h2⟩
        · exact Or.inl (f1 ▸ h2)
        · exact Or.inr ⟨f1.trans f2, lt_trans h1 h2⟩

/-- The tuple order is trichotomous. -/
lemma keyLt_total (a b : Nat × Nat × String) : keyLt a b ∨ a = b ∨ keyLt b a := by
  obtain ⟨a1, a2, a3⟩ := a
  obtain ⟨b1, b2, b3⟩ := b
  unfold keyLt
  rcases Nat.lt_trichotomy a1 b1 with h1 | h1 | h1
  · exact Or.inl (Or.inl h1)
  · rcases Nat.lt_trichotomy a2 b2 with h2 | h2 | h2
    · exact Or.inl (Or.inr ⟨h1, Or.inl h2⟩)
    · rcases lt_trichotomy a3 b3 with h3 | h3 | h3
      · exact Or.inl (Or.inr ⟨h1, Or.inr ⟨h2, h3⟩⟩)
      · subst h1; subst h2; subst h3; exact Or.inr (Or.inl rfl)
      · exact Or.inr (Or.inr (Or.inr ⟨h1.symm, Or.inr ⟨h2.symm, h3⟩⟩))
    · exact Or.inr (Or.inr (Or.inr ⟨h1.symm, Or.inl h2⟩))
  · exact Or.inr (Or.inr (Or.inl h1))

/-- The scan's result is its starting element or a scanned element. -/
lemma foldl_min_mem (prefer : String) :
    ∀ (l : List Entry) (acc : Entry),
      l.foldl (stepMin prefer) acc = acc ∨ l.foldl (stepMin prefer) acc ∈ l := by
  intro l
  induction l with
  | nil => intro acc; exact Or.inl rfl
  | cons y l ih =>
    intro acc
    rw [List.foldl_cons]
    rcases ih (stepMin prefer acc y) with h | h
    · rw [h]
      unfold stepMin
      split
      · exact Or.inr (List.mem_cons_self y l)
      · exact Or.inl rfl
    · exact Or.inr (List.mem_cons_of_mem y h)

/-- No scanned element (nor the start) has a key strictly below the scan's
result: the result is minimal under the tuple order. -/
lemma foldl_min_not_lt (prefer : String) :
    ∀ (l : List Entry) (acc : Entry),
      ¬ keyLt (dedup_key prefer acc)
        (dedup_key prefer (l.foldl (stepMin prefer) acc))
      ∧ ∀ x ∈ l, ¬ keyLt (dedup_key prefer x)
        (dedup_key prefer (l.foldl (stepMin prefer) acc)) := by
  intro l
  induction l with
  | nil =>
    intro acc
    exact ⟨keyLt_irrefl _, by simp⟩
  | cons y l ih =>
    intro acc
    rw [List.foldl_cons]
    by_cases hy : keyLt (dedup_key prefer y) (dedup_key prefer acc)
    · have hstep : stepMin prefer acc y = y := if_pos hy
      obtain ⟨ih1, ih2⟩ := ih (stepMin prefer acc y)
      rw [hstep] at ih1 ih2 ⊢
      refine ⟨fun h => ih1 (keyLt_trans hy h), ?_⟩
      intro x hx
      rcases List.mem_cons.1 hx with rfl | hx
      · exact ih1
      · exact ih2 x hx
    · have hstep : stepMin prefer acc y = acc := if_neg hy
      obtain ⟨ih1, ih2⟩ := ih (stepMin prefer acc y)
      rw [hstep] at ih1 ih2 ⊢
      refine ⟨ih1, ?_⟩
      intro x hx
      rcases List.mem_cons.1 hx with rfl | hx
      · intro h
        rcases keyLt_total (dedup_key prefer x) (dedup_key prefer acc) with
          ht | ht | ht
        · exact hy ht
        · rw [ht] at h; exact ih1 h
        · exact ih1 (keyLt_trans ht h)
      · exact ih2 x hx

/-- When one element's key is strictly below every other element's key,
the scan returns that element, whatever the order. -/
lemma foldl_min_unique (prefer : String) (e : Entry) :
    ∀ (l : List Entry) (acc : Entry),
      (∀ x ∈ l, x = e ∨ (keyLt (dedup_key prefer e) (dedup_key prefer x) ∧
        ¬ keyLt (dedup_key prefer x) (dedup_key prefer e))) →
      (acc = e ∨ (keyLt (dedup_key prefer e) (dedup_key prefer acc) ∧ e ∈ l)) →
      l.foldl (stepMin prefer) acc = e := by
  intro l
  induction l with
  | nil =>
    intro acc _ hacc
    rcases hacc with rfl | ⟨-, hin⟩
    · rfl
    · exact absurd hin (by simp)
  | cons y l ih =>
    intro acc hl hacc
    rw [List.foldl_cons]
    have hl' : ∀ x ∈ l, x = e ∨
        (keyLt (dedup_key prefer e) (dedup_key prefer x) ∧
         ¬ keyLt (dedup_key prefer x) (dedup_key prefer e)) :=
      fun x hx => hl x (List.mem_cons_of_mem y hx)
    rcases hacc with heq | ⟨hlt, hin⟩
    · rcases hl y (List.mem_cons_self y l) with hye | ⟨-, h2⟩
      · have hstep : stepMin prefer acc y = acc := by
          rw [heq, hye]
          unfold stepMin
          exact if_neg (keyLt_irrefl _)
        rw [hstep]
        exact ih acc hl' (Or.inl heq)
      · have hstep : stepMin prefer acc y = acc := by
          rw [heq]
          unfold stepMin
          exact if_neg h2
        rw [hstep]
        exact ih acc hl' (Or.inl heq)
    · by_cases hy : y = e
      · have hstep : stepMin prefer acc y = y := by
          rw [hy]
          unfold stepMin
          exact if_pos hlt
        rw [hstep, hy]
        exact ih e hl' (Or.inl rfl)
      · rcases hl y (List.mem_cons_self y l) with hye | ⟨hy1, -⟩
        · exact absurd hye hy
        · have hin' : e ∈ l := by
            rcases List.mem_cons.1 hin with heq | hin'
            · exact absurd heq.symm hy
            · exact hin'
          unfold stepMin
          split
          · exact ih y hl' (Or.inr ⟨hy1, hin'⟩)
          · exact ih acc hl' (Or.inr ⟨hlt, hin'⟩)

/-- With `--prefer native`, a native entry's key is strictly below a
flatpak entry's key. -/
lemma native_vs_flatpak {e x : Entry} (he : e.provider = "native")
    (hx : x.provider = "flatpak") :
    keyLt (dedup_key "native" e) (dedup_key "native" x)
    ∧ ¬ keyLt (dedup_key "native" x) (dedup_key "native" e) := by
  have h1 : (dedup_key "native" e).1 = 0 := by
    show provider_rank e.provider "native" = 0
    rw [he]
    decide
  have h2 : (dedup_key "native" x).1 = 1 := by
    show provider_rank x.provider "native" = 1
    rw [hx]
    decide
  constructor
  · exact Or.inl (by rw [h1, h2]; exact Nat.zero_lt_one)
  · rintro (h | ⟨h, -⟩)
    · rw [h1, h2] at h; exact absurd h (by decide)
    · rw [h1, h2] at h; exact absurd h (by decide)

/-- C3: the name-strategy keep is chosen by the deterministic tie-break —
the kept entry is a group member whose key (provider rank under the
configured preference, then system-before-user scope, then path) no other
member strictly undercuts; and for any group holding one native entry
among flatpak entries, `--prefer native` selects that native entry for
every permutation of the group's order. -/
theorem C3_keep_selection (prefer : String) (g gp : List Entry) (e k : Entry) :
    (keep_by_name prefer g = some k →
      k ∈ g ∧ ∀ x ∈ g, ¬ keyLt (dedup_key prefer x) (dedup_key prefer k))
    ∧ (List.Perm g gp → e ∈ g → e.provider = "native" →
      (∀ x ∈ g, x ≠ e → x.provider = "flatpak") →
      keep_by_name "native" gp = some e) := by
  constructor
  · intro hk
    cases g with
    | nil => exact absurd hk (by simp [keep_by_name])
    | cons a rest =>
      have hk' : rest.foldl (stepMin prefer) a = k := by
        simpa [keep_by_name] using hk
      constructor
      · rcases foldl_min_mem prefer rest a with h | h
        · rw [hk'] at h; rw [h]; exact List.mem_cons_self a rest
        · rw [hk'] at h; exact List.mem_cons_of_mem a h
      · intro x hx
        obtain ⟨h1, h2⟩ := foldl_min_not_lt prefer rest a
        rw [hk'] at h1 h2
        rcases List.mem_cons.1 hx with rfl | hx
        · exact h1
        · exact h2 x hx
  · intro hperm hmem hnat hrest
    have hmem' : e ∈ gp := hperm.mem_iff.1 hmem
    cases hgp : gp with
    | nil => rw [hgp] at hmem'; exact absurd hmem' (by simp)
    | cons a t =>
      rw [hgp] at hmem'
      have hcond : ∀ x ∈ gp, x = e ∨
          (keyLt (dedup_key "native" e) (dedup_key "native" x) ∧
           ¬ keyLt (dedup_key "native" x) (dedup_key "native" e)) := by
        intro x hx
        by_cases hxe : x = e
        · exact Or.inl hxe
        · exact Or.inr (native_vs_flatpak hnat
            (hrest x (hperm.mem_iff.2 hx) hxe))
      have hshow : t.foldl (stepMin "native") a = e := by
        apply foldl_min_unique "native" e t a
        · intro x hx
          exact hcond x (by rw [hgp]; exact List.mem_cons_of_mem a hx)
        · rcases hcond a (by rw [hgp]; exact List.mem_cons_self a t) with
            heqa | ⟨h1, -⟩
          · exact Or.inl heqa
          · refine Or.inr ⟨h1, ?_⟩
            rcases List.mem_cons.1 hmem' with heq | hin
            · exfalso
              rw [← heq] at h1
              exact keyLt_irrefl _ h1
            · exact hin
      simp [keep_by_name, hshow]

/-- A native-provider Editor entry. -/
def entN : Entry :=
  { path := "/usr/share/applications/editor.desktop", scope := "system"
    name := "Editor", exec_line := "gedit %U", tryexec := ""
    mimetypes := ["text/plain"], hidden := false, nodisplay := false
    entry_type := "Application", first_cmd := "gedit", provider := "native"
    broken := false, reason := "" }

/-- A flatpak-provider Editor entry. -/
def entF : Entry :=
  { path := "/var/lib/flatpak/exports/share/applications/org.editor.desktop"
    scope := "system", name := "Editor", exec_line := "flatpak run org.editor"
    tryexec := "", mimetypes := ["text/plain"], hidden := false
    nodisplay := false, entry_type := "Application", first_cmd := "flatpak"
    provider := "flatpak", broken := false, reason := "" }

/-- C3 at a concrete group: with `--prefer native`, the native entry is
kept also when the flatpak entry comes first in input order. -/
theorem C3_witness : keep_by_name "native" [entF, entN] = some entN :=
  (C3_keep_selection "native" [entN, entF] [entF, entN] entN entN).2
    (List.Perm.swap entF entN []) (by decide) (by decide) (by decide)

/-! ### The locator's deduplication (C5) -/

/-- The inner loop of the locator: the `seen` set always mirrors the path
list, the path list stays duplicate-free, and it accumulates exactly the
directory's globbed paths. -/
lemma addDirFiles_spec (d : String) :
    ∀ (files seen acc : List String),
      (∀ x, x ∈ seen ↔ x ∈ acc) → acc.Nodup →
      (∀ x, x ∈ (addDirFiles d files (seen, acc)).1 ↔
        x ∈ (addDirFiles d files (seen, acc)).2)
      ∧ (addDirFiles d files (seen, acc)).2.Nodup
      ∧ (∀ x, x ∈ (addDirFiles d files (seen, acc)).2 ↔
          x ∈ acc ∨ ∃ f ∈ files, x = d ++ "/" ++ f) := by
  intro files
  induction files with
  | nil =>
    intro seen acc hinv hnd
    exact ⟨hinv, hnd, fun x => by simp [addDirFiles]⟩
  | cons f rest ih =>
    intro seen acc hinv hnd
    by_cases hp : d ++ "/" ++ f ∈ seen
    · have e1 : addDirFiles d (f :: rest) (seen, acc)
          = addDirFiles d rest (seen, acc) := by
        simp only [addDirFiles, if_pos hp]
      rw [e1]
      obtain ⟨h1, h2, h3⟩ := ih seen acc hinv hnd
      refine ⟨h1, h2, fun x => ?_⟩
      rw [h3 x]
      constructor
      · rintro (hx | ⟨g, hg, rfl⟩)
        · exact Or.inl hx
        · exact Or.inr ⟨g, List.mem_cons_of_mem f hg, rfl⟩
      · rintro (hx | ⟨g, hg, rfl⟩)
        · exact Or.inl hx
        · rcases List.mem_cons.1 hg with rfl | hg
          · exact Or.inl ((hinv _).1 hp)
          · exact Or.inr ⟨g, hg, rfl⟩
    · have e2 : addDirFiles d (f :: rest) (seen, acc)
          = addDirFiles d rest
              ((d ++ "/" ++ f) :: seen, acc ++ [d ++ "/" ++ f]) := by
        simp only [addDirFiles, if_neg hp]
      rw [e2]
      have hnacc : d ++ "/" ++ f ∉ acc := fun h => hp ((hinv _).2 h)
      have hinv' : ∀ x, x ∈ (d ++ "/" ++ f) :: seen ↔
          x ∈ acc ++ [d ++ "/" ++ f] := by
        intro x
        simp only [List.mem_cons, List.mem_append, List.mem_singleton]
        rw [hinv x]
        tauto
      have hnd' : (acc ++ [d ++ "/" ++ f]).Nodup := by
        refine List.Nodup.append hnd (List.nodup_singleton _) ?_
        intro a ha hb
        rw [List.mem_singleton] at hb
        subst hb
        exact hnacc ha
      obtain ⟨h1, h2, h3⟩ := ih _ _ hinv' hnd'
      refine ⟨h1, h2, fun x => ?_⟩
      rw [h3 x]
      simp only [List.mem_append, List.mem_singleton]
      constructor
      · rintro ((hx | rfl) | ⟨g, hg, rfl⟩)
        · exact Or.inl hx
        · exact Or.inr ⟨f, List.mem_cons_self f rest, rfl⟩
        · exact Or.inr ⟨g, List.mem_cons_of_mem f hg, rfl⟩
      · rintro (hx | ⟨g, hg, rfl⟩)
        · exact Or.inl (Or.inl hx)
        · rcases List.mem_cons.1 hg with rfl | hg
          · exact Or.inl (Or.inr rfl)
          · exact Or.inr ⟨g, hg, rfl⟩

/-- The outer loop of the locator: the accumulated path list is
duplicate-free and holds exactly the globbed paths of the existing
directories scanned so far. -/
lemma findAux_spec (fs : LocFS) :
    ∀ (ds : List String) (seen acc : List String),
      (∀ x, x ∈ seen ↔ x ∈ acc) → acc.Nodup →
      (findAux fs ds (seen, acc)).2.Nodup
      ∧ (∀ x, x ∈ (findAux fs ds (seen, acc)).2 ↔
          x ∈ acc ∨ ∃ d ∈ ds, fs.dirExists d = true ∧
            ∃ f ∈ fs.globDesktop d, x = d ++ "/" ++ f) := by
  intro ds
  induction ds with
  | nil =>
    intro seen acc hinv hnd
    exact ⟨hnd, fun x => by simp [findAux]⟩
  | cons d ds ih =>
    intro seen acc hinv hnd
    by_cases hd : fs.dirExists d = true
    · have e1 : findAux fs (d :: ds) (seen, acc)
          = findAux fs ds (addDirFiles d (fs.globDesktop d) (seen, acc)) := by
        simp only [findAux, if_pos hd]
      rw [e1]
      obtain ⟨a1, a2, a3⟩ := addDirFiles_spec d (fs.globDesktop d) seen acc hinv hnd
      obtain ⟨b1, b2⟩ := ih (addDirFiles d (fs.globDesktop d) (seen, acc)).1
        (addDirFiles d (fs.globDesktop d) (seen, acc)).2 a1 a2
      refine ⟨b1, fun x => ?_⟩
      rw [b2 x, a3 x]
      constructor
      · rintro ((hx | ⟨g, hg, rfl⟩) | ⟨dp, hdp, hex, f, hf, rfl⟩)
        · exact Or.inl hx
        · exact Or.inr ⟨d, List.mem_cons_self d ds, hd, g, hg, rfl⟩
        · exact Or.inr ⟨dp, List.mem_cons_of_mem d hdp, hex, f, hf, rfl⟩
      · rintro (hx | ⟨dp, hdp, hex, f, hf, rfl⟩)
        · exact Or.inl (Or.inl hx)
        · rcases List.mem_cons.1 hdp with rfl | hdp
          · exact Or.inl (Or.inr ⟨f, hf, rfl⟩)
          · exact Or.inr ⟨dp, hdp, hex, f, hf, rfl⟩
    · have e2 : findAux fs (d :: ds) (seen, acc) = findAux fs ds (seen, acc) := by
        simp only [findAux, if_neg hd]
      rw [e2]
      obtain ⟨b1, b2⟩ := ih seen acc hinv hnd
      refine ⟨b1, fun x => ?_⟩
      rw [b2 x]
      constructor
      · rintro (hx | ⟨dp, hdp, hex, f, hf, rfl⟩)
        · exact Or.inl hx
        · exact Or.inr ⟨dp, List.mem_cons_of_mem d hdp, hex, f, hf, rfl⟩
      · rintro (hx | ⟨dp, hdp, hex, f, hf, rfl⟩)
        · exact Or.inl hx
        · rcases List.mem_cons.1 hdp with rfl | hdp
          · exact absurd hex hd
          · exact Or.inr ⟨dp, hdp, hex, f, hf, rfl⟩

/-- A two-root layout in which the same underlying file (one filesystem
identity) is reachable under both the native and the flatpak export
application directory — e.g. one is a symlink to the other. -/
def locFsW : LocFS :=
  { dirExists := fun d => d = "/usr/share/applications" ||
      d = "/var/lib/flatpak/exports/share/applications"
    globDesktop := fun d =>
      if d = "/usr/share/applications" ||
          d = "/var/lib/flatpak/exports/share/applications" then ["a.desktop"]
      else []
    fileId := fun _ => 0 }

/-- C5, counterexample to the claim as stated: the locator deduplicates by
path string, not by filesystem identity — the single underlying file
(identity 0) reachable from two search roots is listed twice, not once. -/
theorem C5_counterexample :
    find_desktop_files "/home/u" locFsW
      = ["/usr/share/applications/a.desktop",
         "/var/lib/flatpak/exports/share/applications/a.desktop"]
    ∧ locFsW.fileId "/usr/share/applications/a.desktop"
        = locFsW.fileId "/var/lib/flatpak/exports/share/applications/a.desktop"
    ∧ ((find_desktop_files "/home/u" locFsW).filter
        (fun p => locFsW.fileId p = 0)).length ≠ 1 := by
  decide

/-- C5 (amended): the locator produces the `*.desktop` files of the fixed
directory list, silently skipping directories that do not exist, and
deduplicates by exact path equality: the result never repeats a path, and
a path is listed iff some existing configured directory globs it. -/
theorem C5_locator_dedup_by_path (home : String) (fs : LocFS) :
    (find_desktop_files home fs).Nodup
    ∧ ∀ p, p ∈ find_desktop_files home fs ↔
        ∃ d ∈ user_dirs home ++ system_dirs, fs.dirExists d = true ∧
          ∃ f ∈ fs.globDesktop d, p = d ++ "/" ++ f := by
  obtain ⟨h1, h2⟩ := findAux_spec fs (user_dirs home ++ system_dirs) [] []
    (fun x => by simp) List.nodup_nil
  refine ⟨h1, fun p => ?_⟩
  have hfd : find_desktop_files home fs
      = (findAux fs (user_dirs home ++ system_dirs) ([], [])).2 := rfl
  rw [hfd, h2 p]
  simp

end OpenwithCleaner
